import Mathlib

/-
  Verification development for the mario plumbing-rule engine
  (src/mario/core.py), a rule-driven message dispatcher.

  The embedding translates the rule evaluator `handle_rules` and the
  clause/action evaluator functions of core.py into executable Lean
  definitions.  Python dictionaries are association lists (insertion
  ordered, first occurrence wins), Python exceptions are an explicit
  `PyErr` error type threaded through `Except`, and the external
  collaborators of spec section 6 (content-type classifier, process
  execution, HTTP, temp files) are fields of an `Env` capability record.
  Python's `re` module is modelled by a small executable regex engine
  covering the constructs the rule language uses (literals, `.`, and
  capture groups); strings using unsupported metacharacters are mapped
  to a regex error.
-/

/-- Message kinds, from `class Kind(Enum)` in core.py. -/
inductive Kind where
  | raw
  | text
  | url
deriving DecidableEq, Repr

/-- `Kind[name]` lookup; `none` models the `KeyError` branch. -/
def kindFromName : String → Option Kind
  | "raw" => some Kind.raw
  | "text" => some Kind.text
  | "url" => some Kind.url
  | _ => none

def kindName : Kind → String
  | Kind.raw => "raw"
  | Kind.text => "text"
  | Kind.url => "url"

/-- Values stored in the message context: strings, or the `Kind` enum
member stored under the `kind` key by `main`. -/
inductive Value where
  | str (s : String)
  | kind (k : Kind)
deriving DecidableEq, Repr

/-- Python exceptions that the evaluator code can raise or catch. -/
inductive PyErr where
  | keyError (k : String)
  | valueError
  | indexError
  | typeError
  | unboundLocal
  | regexError
  | requestError
deriving DecidableEq, Repr

/-- Observable events of one `handle_rules` run: a match clause being
invoked (rule index, clause index), an action clause being invoked
(rule index, action index), an external process invocation with its
argument vector, and a consultation of the content-type classifier. -/
inductive Event where
  | clause (ri ci : Nat)
  | action (ri ai : Nat)
  | exec (argv : List String)
  | classify (arg : String)
deriving DecidableEq, Repr

/-- Rule index of an action-invocation event, `none` for other events. -/
def actionRuleIdx : Event → Option Nat
  | Event.action ri _ => some ri
  | _ => none

/-! ### Association lists (Python dict model)

Python dicts keep insertion order of first appearance and update values
in place; these helpers implement exactly that over `List (String × β)`. -/

def alookup {β : Type} : List (String × β) → String → Option β
  | [], _ => none
  | (k, v) :: t, key => if k = key then some v else alookup t key

def aset {β : Type} : List (String × β) → String → β → List (String × β)
  | [], key, v => [(key, v)]
  | (k, w) :: t, key, v =>
    if k = key then (k, v) :: t else (k, w) :: aset t key v

def adel {β : Type} : List (String × β) → String → List (String × β)
  | [], _ => []
  | (k, w) :: t, key => if k = key then t else (k, w) :: adel t key

/-! ### ElasticDict (transactional context)

Modelled from the spec: `mario/util.py` (class `ElasticDict`) is not
under `src/`; only its tests (`src/mario/tests.py`, `TestElasticDict`)
and callers are.  Spec section 4.2 gives the contract: `set` records
an insert/update undo entry for every mutation, `get` fails with a
missing-variable condition on an absent key, and `reverse`/`revert`
pops undo entries newest-first (deleting inserted keys and restoring
updated keys to their prior values) until the log is empty. -/

inductive LogEntry where
  | insert (k : String)
  | update (k : String) (old : Value)
deriving DecidableEq, Repr

structure ElasticDict where
  entries : List (String × Value)
  log : List LogEntry
deriving DecidableEq, Repr

def ElasticDict.get (d : ElasticDict) (k : String) : Option Value :=
  alookup d.entries k

def ElasticDict.set (d : ElasticDict) (k : String) (v : Value) : ElasticDict :=
  match alookup d.entries k with
  | none => ⟨d.entries ++ [(k, v)], LogEntry.insert k :: d.log⟩
  | some old => ⟨aset d.entries k v, LogEntry.update k old :: d.log⟩

/-- Undo one log entry against an entries list. -/
def undoEntry (es : List (String × Value)) : LogEntry → List (String × Value)
  | LogEntry.insert k => adel es k
  | LogEntry.update k old => aset es k old

/-- `ElasticDict.reverse`: undo every logged mutation, newest first,
leaving an empty log (spec section 4.2, `revert()`). -/
def ElasticDict.reverse (d : ElasticDict) : ElasticDict :=
  ⟨d.log.foldl undoEntry d.entries, []⟩

/-- `msg.update(pairs)`: iterated `set` in pair order (Python dict
update calls the mapping's item assignment for each pair in order). -/
def msgUpdate (d : ElasticDict) (ps : List (String × Value)) : ElasticDict :=
  ps.foldl (fun m p => m.set p.1 p.2) d

/-! ### String helpers (models of the Python built-ins the code uses)

Brace characters are written with `\x7b` / `\x7d` escapes throughout.
Recursive scanners take a fuel argument of `length + 1`, which is
sufficient because every recursive call consumes at least one
character. -/

def obr : Char := '\x7b'
def cbr : Char := '\x7d'

/-- Rendering of a context value by `str.format` interpolation:
strings are inserted verbatim, `Kind` enum members print as in Python
(`str(Kind.raw) = "Kind.raw"`). -/
def valueFmt : Value → String
  | Value.str s => s
  | Value.kind k => "Kind." ++ kindName k

/-- Scan a replacement-field name: characters up to the closing brace.
`none` models Python's `ValueError` for an unterminated or malformed
field. -/
def splitName : List Char → Option (List Char × List Char)
  | [] => none
  | c :: r =>
    if c = cbr then some ([], r)
    else if c = obr then none
    else (splitName r).map (fun p => (c :: p.1, p.2))

/-- Model of Python `template.format(**msg)` restricted to the shapes the
rule language uses: `\x7b\x7b`/`\x7d\x7d` escapes and plain `\x7bname\x7d`
replacement fields looked up in the context.  A missing key raises
`KeyError(name)`, an empty field raises `IndexError` (positional field
with no positional arguments), and stray braces raise `ValueError`.
Format specs/conversions (`:`/`!`) are not modelled; rule files do not
use them. -/
def pyFormatGo (msg : ElasticDict) : Nat → List Char → Except PyErr (List Char)
  | 0, _ => Except.ok []
  | _ + 1, [] => Except.ok []
  | f + 1, c :: rest =>
    if c = obr then
      match rest with
      | [] => Except.error PyErr.valueError
      | c2 :: rest2 =>
        if c2 = obr then (pyFormatGo msg f rest2).map (fun t => obr :: t)
        else
          match splitName (c2 :: rest2) with
          | none => Except.error PyErr.valueError
          | some (name, rest') =>
            if name = [] then Except.error PyErr.indexError
            else
              match msg.get (String.mk name) with
              | none => Except.error (PyErr.keyError (String.mk name))
              | some v =>
                (pyFormatGo msg f rest').map
                  (fun t => (valueFmt v).data ++ t)
    else if c = cbr then
      match rest with
      | [] => Except.error PyErr.valueError
      | c2 :: rest2 =>
        if c2 = cbr then (pyFormatGo msg f rest2).map (fun t => cbr :: t)
        else Except.error PyErr.valueError
    else (pyFormatGo msg f rest).map (fun t => c :: t)

def pyFormat (s : String) (msg : ElasticDict) : Except PyErr String :=
  (pyFormatGo msg (s.length + 1) s.data).map String.mk

/-- Suffix after the first occurrence of `c`, if any (Python `find`). -/
def splitAtChar (c : Char) : List Char → Option (List Char × List Char)
  | [] => none
  | x :: r =>
    if x = c then some ([], r)
    else (splitAtChar c r).map (fun p => (x :: p.1, p.2))

/-- Model of core.py `get_var_references`: repeatedly find a `\x7b`,
then the next `\x7d` after it, yield the including slice, and resume
after the closing brace. -/
def getVarRefsGo : Nat → List Char → List String
  | 0, _ => []
  | f + 1, l =>
    match splitAtChar obr l with
    | none => []
    | some (_, rest) =>
      match splitAtChar cbr rest with
      | none => []
      | some (inner, rest') =>
        String.mk (obr :: (inner ++ [cbr])) :: getVarRefsGo f rest'

def get_var_references (s : String) : List String :=
  getVarRefsGo (s.length + 1) s.data

/-- Helper for `escape_match_group_references`: after an opening brace,
recognise zero or more digits followed by a closing brace (the regex
pattern with escaped digits and braces used in core.py). -/
def digitsThenBrace : List Char → Option (List Char × List Char)
  | [] => none
  | c :: r =>
    if c = cbr then some ([], r)
    else if c.isDigit then (digitsThenBrace r).map (fun p => (c :: p.1, p.2))
    else none

def escapeGo : Nat → List Char → List Char
  | 0, l => l
  | _ + 1, [] => []
  | f + 1, c :: rest =>
    if c = obr then
      match digitsThenBrace rest with
      | some (ds, rest') => obr :: '\\' :: (ds ++ cbr :: escapeGo f rest')
      | none => obr :: escapeGo f rest
    else c :: escapeGo f rest

/-- Model of core.py `escape_match_group_references`: rewrite every
digits-only replacement field `\x7bn\x7d` to `\x7b\n\x7d` so that later
`format` calls resolve it as the named variable `\n` bound by a match
clause instead of a positional argument. -/
def escape_match_group_references (s : String) : String :=
  String.mk (escapeGo (s.length + 1) s.data)

def isBrace (c : Char) : Bool := c = obr || c = cbr

/-- Python `s.strip(braces)`: drop leading and trailing brace characters. -/
def stripBraces (s : String) : String :=
  String.mk (((s.data.dropWhile isBrace).reverse.dropWhile isBrace).reverse)

def replaceGo (pat rep : List Char) : Nat → List Char → List Char
  | 0, l => l
  | _ + 1, [] => []
  | f + 1, c :: rest =>
    if pat.isPrefixOf (c :: rest) then
      rep ++ replaceGo pat rep f ((c :: rest).drop pat.length)
    else c :: replaceGo pat rep f rest

/-- Python `s.replace(pat, rep)`: replace every occurrence, scanning
left to right without overlap; an empty pattern inserts `rep` at every
position including both ends. -/
def pyReplace (s pat rep : String) : String :=
  if pat = "" then
    String.mk (rep.data ++ s.data.flatMap (fun c => c :: rep.data))
  else String.mk (replaceGo pat.data rep.data (s.length + 1) s.data)

/-- Python `s.split(",", 2)`: at most two splits, so at most three parts. -/
def splitC2 (s : String) : List String :=
  match splitAtChar ',' s.data with
  | none => [s]
  | some (a, r1) =>
    match splitAtChar ',' r1 with
    | none => [String.mk a, String.mk r1]
    | some (b, r2) => [String.mk a, String.mk b, String.mk r2]

def wordsGo : Nat → List Char → List String
  | 0, _ => []
  | f + 1, l =>
    match l.dropWhile Char.isWhitespace with
    | [] => []
    | c :: rest =>
      String.mk (c :: rest.takeWhile (fun x => !x.isWhitespace)) ::
        wordsGo f (rest.dropWhile (fun x => !x.isWhitespace))

/-- Python `s.split()` with no separator: split on whitespace runs,
dropping empty fields. -/
def pySplitWs (s : String) : List String :=
  wordsGo (s.length + 1) s.data

/-! ### Regex engine (model of the `re` module calls)

`re.search` is external library code; the rule files of this repository
use only literal characters, `.`, and capture groups, so the model
implements exactly those.  Patterns using other metacharacters are
mapped to `PyErr.regexError` (an invalid pattern for this model). -/

inductive RE where
  | emp
  | lit (c : Char)
  | dot
  | grp (r : RE)
  | cat (a b : RE)
deriving DecidableEq, Repr

def metaChars : List Char := ['*', '+', '?', '[', ']', '|', '^', '$', '\\', obr, cbr]

def parseManyF : Nat → List Char → Option (RE × List Char)
  | 0, _ => none
  | _ + 1, [] => some (RE.emp, [])
  | f + 1, c :: rest =>
    if c = ')' then some (RE.emp, c :: rest)
    else if c = '(' then
      match parseManyF f rest with
      | none => none
      | some (inner, rest') =>
        match rest' with
        | [] => none
        | r :: rest'' =>
          if r = ')' then
            match parseManyF f rest'' with
            | none => none
            | some (rre, rest3) => some (RE.cat (RE.grp inner) rre, rest3)
          else none
    else if c ∈ metaChars then none
    else if c = '.' then
      match parseManyF f rest with
      | none => none
      | some (rre, r2) => some (RE.cat RE.dot rre, r2)
    else
      match parseManyF f rest with
      | none => none
      | some (rre, r2) => some (RE.cat (RE.lit c) rre, r2)

def parsePattern (s : String) : Option RE :=
  match parseManyF (s.length + 1) s.data with
  | some (r, []) => some r
  | _ => none

/-- Deterministic matcher: returns the consumed characters and the
capture groups in group-opening order. -/
def matRE : RE → List Char → Option (List Char × List String)
  | RE.emp, _ => some ([], [])
  | RE.lit _, [] => none
  | RE.lit c, x :: _ => if x = c then some ([x], []) else none
  | RE.dot, [] => none
  | RE.dot, x :: _ => if x = '\n' then none else some ([x], [])
  | RE.grp r, s => (matRE r s).map (fun p => (p.1, String.mk p.1 :: p.2))
  | RE.cat r1 r2, s =>
    match matRE r1 s with
    | none => none
    | some (c1, g1) =>
      match matRE r2 (s.drop c1.length) with
      | none => none
      | some (c2, g2) => some (c1 ++ c2, g1 ++ g2)

/-- `re.search`: try the pattern at every start position, leftmost
match wins; the result is `m.groups()`. -/
def searchRE (r : RE) : List Char → Option (List String)
  | [] => (matRE r []).map (fun p => p.2)
  | c :: t =>
    match matRE r (c :: t) with
    | some (_, gs) => some gs
    | none => searchRE r t

/-- `re.search(pattern, s)` with pattern compilation: an unsupported or
malformed pattern is a raised regex error. -/
def reSearchE (p s : String) : Except PyErr (Option (List String)) :=
  match parsePattern p with
  | none => Except.error PyErr.regexError
  | some r => Except.ok (searchRE r s.data)

/-- The `for pattern in patterns: m = re.search(...); if m: break` loop
shared by `arg_matches_func` and `arg_istype_func`: first pattern that
searches successfully wins. -/
def firstSearchE : List String → String → Except PyErr (Option (List String))
  | [], _ => Except.ok none
  | p :: ps, s =>
    match reSearchE p s with
    | Except.error e => Except.error e
    | Except.ok (some gs) => Except.ok (some gs)
    | Except.ok none => firstSearchE ps s


/-! ### Clause and action evaluators (core.py lines 68-286)

Each match-clause evaluator returns, as in the source, a boolean plus
the (possibly mutated) context and type cache; the extra `List Event`
component records classifier consultations, and `Except PyErr` carries
exceptions the Python code would raise past the evaluator. -/

/-- Type cache: the `cache['type']` dict of `handle_rules`. -/
abbrev TypeCache := List (String × String)

/-- External collaborators (spec section 6): content-type detection
(`detect_mimetype`, whose internals delegate to the mimetypes/magic/HTTP
libraries), process execution (`subprocess.call`; `none` models
`FileNotFoundError`), HTTP download (`none` models a raised request
error), temp-file creation, and whether writing the temp file succeeds. -/
structure Env where
  detect : Value → String → Option String
  exec : List String → Option Int
  httpGet : String → Option Unit
  writeOk : Bool
  tmpName : String

/-- Python truthiness of the detected type: `None` and `""` are falsy. -/
def truthyS : Option String → Bool
  | none => false
  | some s => !(s = "")

abbrev ClauseRes := Except PyErr (Bool × ElasticDict × TypeCache × List Event)

/-- core.py `kind_is_func`: compare `msg['kind']` with `Kind[args[0]]`,
catching `KeyError` from either lookup (absent kind field, or an
argument that is not a kind name) as a `False` result.  Python
evaluates `msg['kind']` first, so an empty argument list only raises
`IndexError` when the kind field is present. -/
def kind_is_func (msg : ElasticDict) (args : List String)
    (cache : TypeCache) : ClauseRes :=
  match msg.get "kind" with
  | none => Except.ok (false, msg, cache, [])
  | some v =>
    match args with
    | [] => Except.error PyErr.indexError
    | a :: _ =>
      match kindFromName a with
      | none => Except.ok (false, msg, cache, [])
      | some k =>
        match v with
        | Value.kind k' => Except.ok (decide (k' = k), msg, cache, [])
        | Value.str _ => Except.ok (false, msg, cache, [])

/-- core.py `arg_is_func`: resolve the target expression and test
membership in the literal list.  A missing variable propagates as
`KeyError`. -/
def arg_is_func (msg : ElasticDict) (target : String) (checks : List String)
    (cache : TypeCache) : ClauseRes :=
  match pyFormat target msg with
  | Except.error e => Except.error e
  | Except.ok s => Except.ok (decide (s ∈ checks), msg, cache, [])

/-- The `\i |-> group_i` bindings an evaluator merges into the context
on a successful search (`enumerate(m.groups())`). -/
def groupPairs (gs : List String) : List (String × Value) :=
  gs.enum.map (fun p => ("\\" ++ toString p.1, Value.str p.2))

/-- core.py `arg_matches_func`: resolve the target, search the patterns
in order, bind numbered capture variables on the first success. -/
def arg_matches_func (msg : ElasticDict) (target : String)
    (patterns : List String) (cache : TypeCache) : ClauseRes :=
  match pyFormat target msg with
  | Except.error e => Except.error e
  | Except.ok s =>
    match firstSearchE patterns s with
    | Except.error e => Except.error e
    | Except.ok none => Except.ok (false, msg, cache, [])
    | Except.ok (some gs) =>
      Except.ok (true, msgUpdate msg (groupPairs gs), cache, [])

/-- One `acc.replace(*pattern.split(',', 2))` step of the rewrite
reduction; a pair that does not split into exactly two pieces makes
`str.replace` raise `TypeError` (wrong arity / non-integer count). -/
def applySubs : String → List String → Except PyErr String
  | s, [] => Except.ok s
  | s, p :: ps =>
    match splitC2 p with
    | [a, b] => applySubs (pyReplace s a b) ps
    | _ => Except.error PyErr.typeError

/-- core.py `arg_rewrite_func`: escape digit-only replacement fields,
resolve the escaped target, left-fold the substitution pairs over the
resolved text, and bind the result under the brace-stripped (escaped)
target name. -/
def arg_rewrite_func (msg : ElasticDict) (target : String)
    (patterns : List String) (cache : TypeCache) : ClauseRes :=
  let arg1 := escape_match_group_references target
  match pyFormat arg1 msg with
  | Except.error e => Except.error e
  | Except.ok tmp =>
    match applySubs tmp patterns with
    | Except.error e => Except.error e
    | Except.ok tmp2 =>
      Except.ok (true, msg.set (stripBraces arg1) (Value.str tmp2), cache, [])

/-- Continuation of `arg_istype_func` once the type is known: a truthy
type is memoized and searched against the patterns (Python leaves the
loop variable `m` unbound when the pattern list is empty, an
`UnboundLocalError`); a falsy type fails the clause without touching
the cache. -/
def istypeCont (msg : ElasticDict) (cache : TypeCache) (a : String)
    (t : Option String) (evs : List Event) (patterns : List String) : ClauseRes :=
  if truthyS t then
    let s := t.getD ""
    let cache' := aset cache a s
    match patterns with
    | [] => Except.error PyErr.unboundLocal
    | _ :: _ =>
      match firstSearchE patterns s with
      | Except.error e => Except.error e
      | Except.ok (some gs) =>
        Except.ok (true, msgUpdate msg (groupPairs gs), cache', evs)
      | Except.ok none => Except.ok (false, msg, cache', evs)
  else Except.ok (false, msg, cache, evs)

/-- core.py `arg_istype_func`: resolve the target, consult the type
cache, else look up `msg['kind']` (a missing kind raises) and invoke
the classifier (recorded as a `classify` event); then proceed as in
`istypeCont`. -/
def arg_istype_func (env : Env) (msg : ElasticDict) (target : String)
    (patterns : List String) (cache : TypeCache) : ClauseRes :=
  match pyFormat target msg with
  | Except.error e => Except.error e
  | Except.ok a =>
    match alookup cache a with
    | some v => istypeCont msg cache a (some v) [] patterns
    | none =>
      match msg.get "kind" with
      | none => Except.error (PyErr.keyError "kind")
      | some kv => istypeCont msg cache a (env.detect kv a) [Event.classify a] patterns

/-- core.py `log_var_references`: walk the replacement fields found by
`get_var_references` and look each (brace-stripped) name up in the
context; the first absent name raises `KeyError`. -/
def log_var_references (msg : ElasticDict) (action : String) : Except PyErr Unit :=
  go (get_var_references action)
where
  go : List String → Except PyErr Unit
    | [] => Except.ok ()
    | r :: rs =>
      match msg.get (stripBraces r) with
      | none => Except.error (PyErr.keyError (stripBraces r))
      | some _ => go rs

abbrev ActionRes := Except PyErr ((Bool × ElasticDict) × List Event)

/-- core.py `plumb_run_func`: a missing variable caught during the
reference scan is an action failure; otherwise the whitespace-split
argument words are each resolved and the external process is invoked
(recorded as an `exec` event).  Exit status 0 is success; a non-zero
exit or a missing executable (`env.exec` returning `none`,
`FileNotFoundError`) is an action failure. -/
def plumb_run_func (env : Env) (msg : ElasticDict) (action : String) : ActionRes :=
  match log_var_references msg action with
  | Except.error _ => Except.ok ((false, msg), [])
  | Except.ok _ =>
    match (pySplitWs action).mapM (fun a => pyFormat a msg) with
    | Except.error e => Except.error e
    | Except.ok argv =>
      match env.exec argv with
      | none => Except.ok ((false, msg), [Event.exec argv])
      | some r => Except.ok ((decide (r = 0), msg), [Event.exec argv])

/-- core.py `plumb_notify_func`: resolve the message (a missing
variable raises), read the rule name, deliver the notification, and
succeed. -/
def plumb_notify_func (msg : ElasticDict) (action : String) : ActionRes :=
  match pyFormat action msg with
  | Except.error e => Except.error e
  | Except.ok _ =>
    match msg.get "rule_name" with
    | none => Except.error (PyErr.keyError "rule_name")
    | some _ => Except.ok ((true, msg), [])

/-- core.py `plumb_save_func`: write `msg['data']` (a missing data
field raises) to a fresh temp file and bind its path as `data_file`. -/
def plumb_save_func (env : Env) (msg : ElasticDict) (_action : String) : ActionRes :=
  match msg.get "data" with
  | none => Except.error (PyErr.keyError "data")
  | some _ =>
    Except.ok ((true, msg.set "data_file" (Value.str env.tmpName)), [])

/-- core.py `plumb_download_func`: a missing variable caught during the
reference scan is an action failure; the resolved URL is fetched (a
network error raised by `requests.get` propagates), and an `OSError`
while writing the body is caught as an action failure; on success the
temp-file path is bound as `filename`. -/
def plumb_download_func (env : Env) (msg : ElasticDict) (action : String) : ActionRes :=
  match log_var_references msg action with
  | Except.error _ => Except.ok ((false, msg), [])
  | Except.ok _ =>
    match pyFormat action msg with
    | Except.error e => Except.error e
    | Except.ok url =>
      match env.httpGet url with
      | none => Except.error PyErr.requestError
      | some _ =>
        if env.writeOk then
          Except.ok ((true, msg.set "filename" (Value.str env.tmpName)), [])
        else Except.ok ((false, msg), [])

/-! ### Rule representation and the evaluator (core.py `handle_rules`)

The parser (`mario/parser.py`, not under `src/`) emits for each rule a
name and a pair of match lines and action lines; `handle_rules`
dispatches on the fixed `"subject verb"` vocabulary of the
`match_clauses` / `action_clauses` tables, so the lines are embedded as
closed sums over that vocabulary. -/

inductive MatchLine where
  | kindIs (args : List String)
  | argIs (target : String) (checks : List String)
  | argIstype (target : String) (patterns : List String)
  | argMatches (target : String) (patterns : List String)
  | argRewrite (target : String) (patterns : List String)
deriving DecidableEq, Repr

inductive ActionVerb where
  | run
  | notify
  | save
  | download
deriving DecidableEq, Repr

abbrev ActionLine := ActionVerb × String

abbrev Rule := String × (List MatchLine × List ActionLine)

/-- Dispatch through the `match_clauses` table. -/
def evalMatchLine (env : Env) (msg : ElasticDict) (cache : TypeCache) :
    MatchLine → ClauseRes
  | MatchLine.kindIs args => kind_is_func msg args cache
  | MatchLine.argIs t cs => arg_is_func msg t cs cache
  | MatchLine.argIstype t ps => arg_istype_func env msg t ps cache
  | MatchLine.argMatches t ps => arg_matches_func msg t ps cache
  | MatchLine.argRewrite t ps => arg_rewrite_func msg t ps cache

/-- The match loop of `handle_rules`: clauses in declared order, each
invocation recorded as a `clause` event; a `False` result stops the
loop (short-circuit AND), the `for`/`else` makes an exhausted loop a
full match.  A raised exception propagates. -/
def evalClauses (env : Env) (msg : ElasticDict) (cache : TypeCache)
    (ri ci : Nat) : List MatchLine → List Event × Except PyErr (Bool × ElasticDict × TypeCache)
  | [] => ([], Except.ok (true, msg, cache))
  | l :: rest =>
    match evalMatchLine env msg cache l with
    | Except.error e => ([Event.clause ri ci], Except.error e)
    | Except.ok (res, msg', cache', tr) =>
      if res then
        let p := evalClauses env msg' cache' ri (ci + 1) rest
        (Event.clause ri ci :: (tr ++ p.1), p.2)
      else (Event.clause ri ci :: tr, Except.ok (false, msg', cache'))

/-- Dispatch through the `action_clauses` table. -/
def evalAction (env : Env) (msg : ElasticDict) :
    ActionVerb → String → ActionRes
  | ActionVerb.run, a => plumb_run_func env msg a
  | ActionVerb.notify, a => plumb_notify_func msg a
  | ActionVerb.save, a => plumb_save_func env msg a
  | ActionVerb.download, a => plumb_download_func env msg a

/-- The action loop of `handle_rules`: each action string is first
passed through `escape_match_group_references`, each invocation is
recorded as an `action` event, and a `False` result stops the
remaining actions of the rule. -/
def runActions (env : Env) (msg : ElasticDict) (ri ai : Nat) :
    List ActionLine → List Event × Except PyErr ElasticDict
  | [] => ([], Except.ok msg)
  | (verb, action) :: rest =>
    match evalAction env msg verb (escape_match_group_references action) with
    | Except.error e => ([Event.action ri ai], Except.error e)
    | Except.ok ((res, msg'), tr) =>
      if res then
        let p := runActions env msg' ri (ai + 1) rest
        (Event.action ri ai :: (tr ++ p.1), p.2)
      else (Event.action ri ai :: tr, Except.ok msg')

/-- The rule loop of `handle_rules`: on a full match, bind `rule_name`,
run the actions, and stop (first match wins); on a failed match,
`msg.reverse()` and continue with the next rule; an exhausted loop is
the no-rule-matched outcome (`none`). -/
def handleRulesGo (env : Env) (msg : ElasticDict) (cache : TypeCache)
    (ri : Nat) : List Rule → List Event × Except PyErr (Option String × ElasticDict)
  | [] => ([], Except.ok (none, msg))
  | (name, (mls, als)) :: rest =>
    match evalClauses env msg cache ri 0 mls with
    | (tr, Except.error e) => (tr, Except.error e)
    | (tr, Except.ok (matched, msg', cache')) =>
      if matched then
        let p := runActions env (msg'.set "rule_name" (Value.str name)) ri 0 als
        (tr ++ p.1, p.2.map (fun m => (some name, m)))
      else
        let p := handleRulesGo env msg'.reverse cache' (ri + 1) rest
        (tr ++ p.1, p.2)

/-- core.py `handle_rules`: evaluate the rule list against the message
context with a fresh (empty) type cache. -/
def handle_rules (env : Env) (msg : ElasticDict) (rules : List Rule) :
    List Event × Except PyErr (Option String × ElasticDict) :=
  handleRulesGo env msg [] 0 rules

/-- All rules of a list fail on (the repeatedly restored) context
`msg`, threading the type cache; returns the final cache.  This is the
hypothesis shape of the first-match-wins property. -/
def allFail (env : Env) (msg : ElasticDict) : TypeCache → Nat → List Rule → Option TypeCache
  | cache, _, [] => some cache
  | cache, ri, (_, (mls, _)) :: rest =>
    match evalClauses env msg cache ri 0 mls with
    | (_, Except.ok (false, _, c2)) => allFail env msg c2 (ri + 1) rest
    | _ => none

/-! ### Concrete environments used by closed instances -/

/-- An environment whose classifier never detects a type, every process
exits 0, HTTP succeeds, and temp files are writable. -/
def env0 : Env := ⟨fun _ _ => none, fun _ => some 0, fun _ => some (), true, "/tmp/plumber-a"⟩

/-- An environment whose classifier always reports `text/plain`. -/
def env1 : Env := ⟨fun _ _ => some "text/plain", fun _ => some 0, fun _ => some (), true, "/tmp/plumber-a"⟩

/-- `env0` with every process exiting with status 1. -/
def envExit1 : Env := ⟨fun _ _ => none, fun _ => some 1, fun _ => some (), true, "/tmp/plumber-a"⟩

/-- `env0` with no executable found on the PATH. -/
def envNoExe : Env := ⟨fun _ _ => none, fun _ => none, fun _ => some (), true, "/tmp/plumber-a"⟩

/-- `p` matches `s` under the regex-search model (a successful
`re.search`). -/
def reMatchesB (p s : String) : Bool :=
  match reSearchE p s with
  | Except.ok (some _) => true
  | _ => false

/-! ### Transactional-context lemmas -/

theorem adel_append_of_lookup_none {l : List (String × Value)} {k : String}
    {v : Value} (h : alookup l k = none) : adel (l ++ [(k, v)]) k = l := by
  induction l with
  | nil => simp [adel]
  | cons p t ih =>
    obtain ⟨k', v'⟩ := p
    by_cases hk : k' = k
    · simp [alookup, hk] at h
    · simp [alookup, hk] at h
      simp [adel, hk, ih h]

theorem aset_aset_of_lookup {l : List (String × Value)} {k : String}
    {old v : Value} (h : alookup l k = some old) :
    aset (aset l k v) k old = l := by
  induction l with
  | nil => simp [alookup] at h
  | cons p t ih =>
    obtain ⟨k', v'⟩ := p
    by_cases hk : k' = k
    · subst hk
      simp [alookup] at h
      simp [aset, h]
    · simp [alookup, hk] at h
      simp [aset, hk, ih h]

/-- A `set` followed by `reverse` behaves like `reverse` alone: the undo
log entry produced by `set` exactly cancels its mutation. -/
theorem reverse_set (d : ElasticDict) (k : String) (v : Value) :
    (d.set k v).reverse = d.reverse := by
  unfold ElasticDict.set ElasticDict.reverse
  cases h : alookup d.entries k with
  | none =>
    simp [List.foldl, undoEntry, adel_append_of_lookup_none h]
  | some old =>
    simp [List.foldl, undoEntry, aset_aset_of_lookup h]

/-- `msg.update` followed by `reverse` behaves like `reverse` alone. -/
theorem reverse_msgUpdate (ps : List (String × Value)) (d : ElasticDict) :
    (msgUpdate d ps).reverse = d.reverse := by
  induction ps generalizing d with
  | nil => rfl
  | cons p t ih =>
    show (msgUpdate (d.set p.1 p.2) t).reverse = d.reverse
    rw [ih, reverse_set]

/-- Reverting a context whose undo log is empty is the identity. -/
theorem reverse_of_log_nil {d : ElasticDict} (h : d.log = []) :
    d.reverse = d := by
  cases d with
  | mk es lg =>
    have hl : lg = [] := h
    subst hl
    rfl


/-! ### Evaluator lemmas -/

theorem kind_is_msg_eq {msg : ElasticDict} {args cache r m' c' tr}
    (h : kind_is_func msg args cache = Except.ok (r, m', c', tr)) : m' = msg := by
  unfold kind_is_func at h
  repeat' split at h
  all_goals simp_all

theorem arg_is_msg_eq {msg : ElasticDict} {t cs cache r m' c' tr}
    (h : arg_is_func msg t cs cache = Except.ok (r, m', c', tr)) : m' = msg := by
  unfold arg_is_func at h
  repeat' split at h
  all_goals simp_all

theorem arg_matches_rev {msg : ElasticDict} {t ps cache r m' c' tr}
    (h : arg_matches_func msg t ps cache = Except.ok (r, m', c', tr)) :
    m'.reverse = msg.reverse := by
  cases hf : pyFormat t msg with
  | error e => simp [arg_matches_func, hf] at h
  | ok s =>
    cases hs : firstSearchE ps s with
    | error e => simp [arg_matches_func, hf, hs] at h
    | ok o =>
      cases o with
      | none =>
        simp [arg_matches_func, hf, hs] at h
        rw [← h.2.1]
      | some gs =>
        simp [arg_matches_func, hf, hs] at h
        rw [← h.2.1]
        exact reverse_msgUpdate _ _

theorem arg_rewrite_rev {msg : ElasticDict} {t ps cache r m' c' tr}
    (h : arg_rewrite_func msg t ps cache = Except.ok (r, m', c', tr)) :
    m'.reverse = msg.reverse := by
  cases hf : pyFormat (escape_match_group_references t) msg with
  | error e => simp [arg_rewrite_func, hf] at h
  | ok tmp =>
    cases ha : applySubs tmp ps with
    | error e => simp [arg_rewrite_func, hf, ha] at h
    | ok tmp2 =>
      simp [arg_rewrite_func, hf, ha] at h
      rw [← h.2.1]
      exact reverse_set _ _ _

theorem istypeCont_rev {msg : ElasticDict} {cache a t evs ps r m' c' tr}
    (h : istypeCont msg cache a t evs ps = Except.ok (r, m', c', tr)) :
    m'.reverse = msg.reverse := by
  by_cases ht : truthyS t = true
  · cases ps with
    | nil => simp [istypeCont, ht] at h
    | cons p ps' =>
      cases hs : firstSearchE (p :: ps') (t.getD "") with
      | error e => simp [istypeCont, ht, hs] at h
      | ok o =>
        cases o with
        | none =>
          simp [istypeCont, ht, hs] at h
          rw [← h.2.1]
        | some gs =>
          simp [istypeCont, ht, hs] at h
          rw [← h.2.1]
          exact reverse_msgUpdate _ _
  · simp [istypeCont, ht] at h
    rw [← h.2.1]

theorem arg_istype_rev {env} {msg : ElasticDict} {t ps cache r m' c' tr}
    (h : arg_istype_func env msg t ps cache = Except.ok (r, m', c', tr)) :
    m'.reverse = msg.reverse := by
  cases hf : pyFormat t msg with
  | error e => simp [arg_istype_func, hf] at h
  | ok a =>
    cases hc : alookup cache a with
    | some v =>
      simp only [arg_istype_func, hf, hc] at h
      exact istypeCont_rev h
    | none =>
      cases hk : msg.get "kind" with
      | none => simp [arg_istype_func, hf, hc, hk] at h
      | some kv =>
        simp only [arg_istype_func, hf, hc, hk] at h
        exact istypeCont_rev h

/-- Any match-clause evaluator mutates the context only through logged
`set` calls, so a subsequent `reverse` cancels its effect. -/
theorem evalMatchLine_rev {env} {msg : ElasticDict} {cache l r m' c' tr}
    (h : evalMatchLine env msg cache l = Except.ok (r, m', c', tr)) :
    m'.reverse = msg.reverse := by
  cases l with
  | kindIs args => rw [kind_is_msg_eq h]
  | argIs t cs => rw [arg_is_msg_eq h]
  | argIstype t ps => exact arg_istype_rev h
  | argMatches t ps => exact arg_matches_rev h
  | argRewrite t ps => exact arg_rewrite_rev h

/-- The match loop mutates the context only through logged `set` calls. -/
theorem evalClauses_rev {env} : ∀ (lines : List MatchLine) (msg : ElasticDict)
    (cache : TypeCache) (ri ci : Nat) (tr : List Event) (r : Bool)
    (m' : ElasticDict) (c' : TypeCache),
    evalClauses env msg cache ri ci lines = (tr, Except.ok (r, m', c')) →
    m'.reverse = msg.reverse := by
  intro lines
  induction lines with
  | nil =>
    intro msg cache ri ci tr r m' c' h
    simp [evalClauses] at h
    rw [← h.2.2.1]
  | cons l rest ih =>
    intro msg cache ri ci tr r m' c' h
    unfold evalClauses at h
    cases hl : evalMatchLine env msg cache l with
    | error e =>
      rw [hl] at h
      simp at h
    | ok q =>
      obtain ⟨res, msg1, cache1, tr1⟩ := q
      rw [hl] at h
      by_cases hres : res = true
      · subst hres
        simp only [if_pos rfl] at h
        cases hrec : evalClauses env msg1 cache1 ri (ci + 1) rest with
        | mk tr2 out =>
          rw [hrec] at h
          simp at h
          have hout : evalClauses env msg1 cache1 ri (ci + 1) rest
              = (tr2, Except.ok (r, m', c')) := by rw [hrec, h.2]
          have h1 := ih msg1 cache1 ri (ci + 1) tr2 r m' c' hout
          rw [h1]
          exact evalMatchLine_rev hl
      · simp only [hres, if_neg] at h
        simp at h
        have hm : m' = msg1 := by
          have := h.2
          simp [hres] at this
          exact this.2.1.symm
        rw [hm]
        exact evalMatchLine_rev hl

/-- Unfolding equations for the loop drivers, stated once so proofs can
rewrite with them. -/
theorem evalClauses_nil (env : Env) (msg : ElasticDict) (cache : TypeCache)
    (ri ci : Nat) :
    evalClauses env msg cache ri ci [] = ([], Except.ok (true, msg, cache)) := rfl

theorem evalClauses_cons (env : Env) (msg : ElasticDict) (cache : TypeCache)
    (ri ci : Nat) (l : MatchLine) (rest : List MatchLine) :
    evalClauses env msg cache ri ci (l :: rest) =
      match evalMatchLine env msg cache l with
      | Except.error e => ([Event.clause ri ci], Except.error e)
      | Except.ok (res, msg', cache', tr) =>
        if res then
          (Event.clause ri ci ::
            (tr ++ (evalClauses env msg' cache' ri (ci + 1) rest).1),
           (evalClauses env msg' cache' ri (ci + 1) rest).2)
        else (Event.clause ri ci :: tr, Except.ok (false, msg', cache')) := rfl

theorem runActions_nil (env : Env) (msg : ElasticDict) (ri ai : Nat) :
    runActions env msg ri ai [] = ([], Except.ok msg) := rfl

theorem runActions_cons (env : Env) (msg : ElasticDict) (ri ai : Nat)
    (verb : ActionVerb) (action : String) (rest : List ActionLine) :
    runActions env msg ri ai ((verb, action) :: rest) =
      match evalAction env msg verb (escape_match_group_references action) with
      | Except.error e => ([Event.action ri ai], Except.error e)
      | Except.ok ((res, msg'), tr) =>
        if res then
          (Event.action ri ai ::
            (tr ++ (runActions env msg' ri (ai + 1) rest).1),
           (runActions env msg' ri (ai + 1) rest).2)
        else (Event.action ri ai :: tr, Except.ok msg') := rfl

theorem handleRulesGo_nil (env : Env) (msg : ElasticDict) (cache : TypeCache)
    (ri : Nat) :
    handleRulesGo env msg cache ri [] = ([], Except.ok (none, msg)) := rfl

theorem handleRulesGo_cons (env : Env) (msg : ElasticDict) (cache : TypeCache)
    (ri : Nat) (name : String) (mls : List MatchLine) (als : List ActionLine)
    (rest : List Rule) :
    handleRulesGo env msg cache ri ((name, (mls, als)) :: rest) =
      match evalClauses env msg cache ri 0 mls with
      | (tr, Except.error e) => (tr, Except.error e)
      | (tr, Except.ok (matched, msg', cache')) =>
        if matched then
          (tr ++ (runActions env (msg'.set "rule_name" (Value.str name)) ri 0 als).1,
           (runActions env (msg'.set "rule_name" (Value.str name)) ri 0 als).2.map
             (fun m => (some name, m)))
        else
          (tr ++ (handleRulesGo env msg'.reverse cache' (ri + 1) rest).1,
           (handleRulesGo env msg'.reverse cache' (ri + 1) rest).2) := rfl

/-- Splitting the match loop: once a prefix fully succeeds, evaluating
the whole list continues the loop on the suffix from the prefix's final
state, with clause indices shifted by the prefix length. -/
theorem evalClauses_append {env : Env} : ∀ (xs : List MatchLine)
    (msg : ElasticDict) (cache : TypeCache) (ri ci : Nat) (tr : List Event)
    (m1 : ElasticDict) (c1 : TypeCache),
    evalClauses env msg cache ri ci xs = (tr, Except.ok (true, m1, c1)) →
    ∀ ys, evalClauses env msg cache ri ci (xs ++ ys) =
      (tr ++ (evalClauses env m1 c1 ri (ci + xs.length) ys).1,
       (evalClauses env m1 c1 ri (ci + xs.length) ys).2) := by
  intro xs
  induction xs with
  | nil =>
    intro msg cache ri ci tr m1 c1 h ys
    simp [evalClauses] at h
    obtain ⟨h1, h2, h3⟩ := h
    subst h1; subst h2; subst h3
    simp
  | cons l rest ih =>
    intro msg cache ri ci tr m1 c1 h ys
    rw [evalClauses_cons] at h
    rw [List.cons_append, evalClauses_cons]
    cases hl : evalMatchLine env msg cache l with
    | error e =>
      rw [hl] at h
      simp at h
    | ok q =>
      obtain ⟨res, msg1, cache1, tr1⟩ := q
      rw [hl] at h
      dsimp only at h ⊢
      by_cases hres : res = true
      · subst hres
        rw [if_pos rfl] at h ⊢
        cases hrec : evalClauses env msg1 cache1 ri (ci + 1) rest with
        | mk tr2 out =>
          rw [hrec] at h
          simp at h
          obtain ⟨htr, hout⟩ := h
          have hxs : evalClauses env msg1 cache1 ri (ci + 1) rest
              = (tr2, Except.ok (true, m1, c1)) := by rw [hrec, hout]
          have hm := ih msg1 cache1 ri (ci + 1) tr2 m1 c1 hxs ys
          rw [hm]
          have hci : ci + 1 + rest.length = ci + (rest.length + 1) := by omega
          rw [hci]
          subst htr
          simp
      · rw [if_neg hres] at h
        simp at h

/-! ### Trace lemmas: which events each component can emit -/

theorem kind_is_tr {msg : ElasticDict} {args cache r m' c' tr}
    (h : kind_is_func msg args cache = Except.ok (r, m', c', tr)) : tr = [] := by
  unfold kind_is_func at h
  repeat' split at h
  all_goals simp_all

theorem arg_is_tr {msg : ElasticDict} {t cs cache r m' c' tr}
    (h : arg_is_func msg t cs cache = Except.ok (r, m', c', tr)) : tr = [] := by
  unfold arg_is_func at h
  repeat' split at h
  all_goals simp_all

theorem arg_matches_tr {msg : ElasticDict} {t ps cache r m' c' tr}
    (h : arg_matches_func msg t ps cache = Except.ok (r, m', c', tr)) : tr = [] := by
  unfold arg_matches_func at h
  repeat' split at h
  all_goals simp_all

theorem arg_rewrite_tr {msg : ElasticDict} {t ps cache r m' c' tr}
    (h : arg_rewrite_func msg t ps cache = Except.ok (r, m', c', tr)) : tr = [] := by
  cases hf : pyFormat (escape_match_group_references t) msg with
  | error e => simp [arg_rewrite_func, hf] at h
  | ok tmp =>
    cases ha : applySubs tmp ps with
    | error e => simp [arg_rewrite_func, hf, ha] at h
    | ok tmp2 =>
      simp [arg_rewrite_func, hf, ha] at h
      simp_all

theorem istypeCont_tr {msg : ElasticDict} {cache a t evs ps r m' c' tr}
    (h : istypeCont msg cache a t evs ps = Except.ok (r, m', c', tr)) : tr = evs := by
  by_cases ht : truthyS t = true
  · cases ps with
    | nil => simp [istypeCont, ht] at h
    | cons p ps' =>
      cases hs : firstSearchE (p :: ps') (t.getD "") with
      | error e => simp [istypeCont, ht, hs] at h
      | ok o =>
        cases o with
        | none => simp [istypeCont, ht, hs] at h; simp_all
        | some gs => simp [istypeCont, ht, hs] at h; simp_all
  · simp [istypeCont, ht] at h
    simp_all

theorem arg_istype_tr {env} {msg : ElasticDict} {t ps cache r m' c' tr}
    (h : arg_istype_func env msg t ps cache = Except.ok (r, m', c', tr)) :
    ∀ e ∈ tr, actionRuleIdx e = none := by
  cases hf : pyFormat t msg with
  | error e => simp [arg_istype_func, hf] at h
  | ok a =>
    cases hc : alookup cache a with
    | some v =>
      simp only [arg_istype_func, hf, hc] at h
      rw [istypeCont_tr h]
      simp
    | none =>
      cases hk : msg.get "kind" with
      | none => simp [arg_istype_func, hf, hc, hk] at h
      | some kv =>
        simp only [arg_istype_func, hf, hc, hk] at h
        rw [istypeCont_tr h]
        simp [actionRuleIdx]

/-- Match-clause evaluators emit no action events. -/
theorem evalMatchLine_no_action {env} {msg : ElasticDict} {cache l r m' c' tr}
    (h : evalMatchLine env msg cache l = Except.ok (r, m', c', tr)) :
    ∀ e ∈ tr, actionRuleIdx e = none := by
  cases l with
  | kindIs args => rw [kind_is_tr h]; simp
  | argIs t cs => rw [arg_is_tr h]; simp
  | argIstype t ps => exact arg_istype_tr h
  | argMatches t ps => rw [arg_matches_tr h]; simp
  | argRewrite t ps => rw [arg_rewrite_tr h]; simp

/-- The match loop emits no action events (only clause and classify
events). -/
theorem evalClauses_no_action {env : Env} : ∀ (lines : List MatchLine)
    (msg : ElasticDict) (cache : TypeCache) (ri ci : Nat),
    ∀ e ∈ (evalClauses env msg cache ri ci lines).1, actionRuleIdx e = none := by
  intro lines
  induction lines with
  | nil => intro msg cache ri ci e he; simp [evalClauses] at he
  | cons l rest ih =>
    intro msg cache ri ci e he
    rw [evalClauses_cons] at he
    cases hl : evalMatchLine env msg cache l with
    | error er =>
      rw [hl] at he
      simp at he
      simp [he, actionRuleIdx]
    | ok q =>
      obtain ⟨res, msg1, cache1, tr1⟩ := q
      rw [hl] at he
      dsimp only at he
      by_cases hres : res = true
      · subst hres
        rw [if_pos rfl] at he
        simp at he
        rcases he with he | he | he
        · simp [he, actionRuleIdx]
        · exact evalMatchLine_no_action hl e he
        · exact ih msg1 cache1 ri (ci + 1) e he
      · rw [if_neg hres] at he
        simp at he
        rcases he with he | he
        · simp [he, actionRuleIdx]
        · exact evalMatchLine_no_action hl e he

theorem evalAction_tr {env} {msg : ElasticDict} {verb a res m' tr}
    (h : evalAction env msg verb a = Except.ok ((res, m'), tr)) :
    ∀ e ∈ tr, actionRuleIdx e = none := by
  cases verb with
  | run =>
    cases hv : log_var_references msg a with
    | error er =>
      simp [evalAction, plumb_run_func, hv] at h
      simp [h.2]
    | ok u =>
      cases hm : (pySplitWs a).mapM (fun x => pyFormat x msg) with
      | error er =>
        simp only [List.mapM] at hm
        simp [evalAction, plumb_run_func, hv, hm] at h
      | ok argv =>
        simp only [List.mapM] at hm
        cases hx : env.exec argv with
        | none =>
          simp [evalAction, plumb_run_func, hv, hm, hx] at h
          intro e he
          rw [← h.2] at he
          simp at he
          subst he
          rfl
        | some rr =>
          simp [evalAction, plumb_run_func, hv, hm, hx] at h
          intro e he
          rw [← h.2] at he
          simp at he
          subst he
          rfl
  | notify =>
    unfold evalAction plumb_notify_func at h
    repeat' split at h
    all_goals simp_all
  | save =>
    unfold evalAction plumb_save_func at h
    repeat' split at h
    all_goals simp_all
  | download =>
    unfold evalAction plumb_download_func at h
    repeat' split at h
    all_goals simp_all

/-- Every action event the action loop emits carries the loop's rule
index. -/
theorem runActions_events {env : Env} : ∀ (as : List ActionLine)
    (msg : ElasticDict) (ri ai : Nat),
    ∀ e ∈ (runActions env msg ri ai as).1, ∀ j, actionRuleIdx e = some j → j = ri := by
  intro as
  induction as with
  | nil => intro msg ri ai e he; simp [runActions] at he
  | cons la rest ih =>
    intro msg ri ai e he j hj
    obtain ⟨verb, action⟩ := la
    rw [runActions_cons] at he
    cases ha : evalAction env msg verb (escape_match_group_references action) with
    | error er =>
      rw [ha] at he
      simp at he
      rw [he] at hj
      simp [actionRuleIdx] at hj
      omega
    | ok q =>
      obtain ⟨⟨res, msg1⟩, tr1⟩ := q
      rw [ha] at he
      dsimp only at he
      by_cases hres : res = true
      · subst hres
        rw [if_pos rfl] at he
        simp at he
        rcases he with he | he | he
        · rw [he] at hj; simp [actionRuleIdx] at hj; omega
        · rw [evalAction_tr ha e he] at hj; simp at hj
        · exact ih msg1 ri (ai + 1) e he j hj
      · rw [if_neg hres] at he
        simp at he
        rcases he with he | he
        · rw [he] at hj; simp [actionRuleIdx] at hj; omega
        · rw [evalAction_tr ha e he] at hj; simp at hj

/-- At most one rule's actions ever execute: all action events of a
run carry one and the same rule index. -/
theorem handleRulesGo_at_most_one {env : Env} : ∀ (rules : List Rule)
    (msg : ElasticDict) (cache : TypeCache) (ri : Nat),
    ∃ k, ∀ e ∈ (handleRulesGo env msg cache ri rules).1,
      ∀ j, actionRuleIdx e = some j → j = k := by
  intro rules
  induction rules with
  | nil =>
    intro msg cache ri
    exact ⟨0, by simp [handleRulesGo]⟩
  | cons rule rest ih =>
    intro msg cache ri
    obtain ⟨name, mls, als⟩ := rule
    rw [handleRulesGo_cons]
    cases hc : evalClauses env msg cache ri 0 mls with
    | mk tr out =>
      cases out with
      | error e =>
        refine ⟨0, ?_⟩
        intro e' he j hj
        dsimp only at he
        have := @evalClauses_no_action env mls msg cache ri 0 e' (by rw [hc]; exact he)
        rw [this] at hj
        simp at hj
      | ok q =>
        obtain ⟨matched, msg', cache'⟩ := q
        dsimp only
        by_cases hm : matched = true
        · subst hm
          rw [if_pos rfl]
          refine ⟨ri, ?_⟩
          intro e' he j hj
          simp at he
          rcases he with he | he
          · have := @evalClauses_no_action env mls msg cache ri 0 e' (by rw [hc]; exact he)
            rw [this] at hj
            simp at hj
          · exact runActions_events als (msg'.set "rule_name" (Value.str name)) ri 0 e' he j hj
        · rw [if_neg hm]
          obtain ⟨k, hk⟩ := ih msg'.reverse cache' (ri + 1)
          refine ⟨k, ?_⟩
          intro e' he j hj
          simp at he
          rcases he with he | he
          · have := @evalClauses_no_action env mls msg cache ri 0 e' (by rw [hc]; exact he)
            rw [this] at hj
            simp at hj
          · exact hk e' he j hj

/-! ### Helper lemmas for the rewrite and istype clauses -/

theorem applySubs_ok {ps : List String} (hps : ∀ p ∈ ps, (splitC2 p).length = 2) :
    ∀ s, ∃ t2, applySubs s ps = Except.ok t2 := by
  induction ps with
  | nil => intro s; exact ⟨s, rfl⟩
  | cons p rest ih =>
    intro s
    have hp := hps p (by simp)
    obtain ⟨a, b, hab⟩ : ∃ a b, splitC2 p = [a, b] := by
      cases hsp : splitC2 p with
      | nil => rw [hsp] at hp; simp at hp
      | cons x l1 =>
        cases l1 with
        | nil => rw [hsp] at hp; simp at hp
        | cons y l2 =>
          cases l2 with
          | nil => exact ⟨x, y, rfl⟩
          | cons z l3 => rw [hsp] at hp; simp at hp
    have ih' := ih (fun q hq => hps q (by simp [hq]))
    obtain ⟨t2, ht2⟩ := ih' (pyReplace s a b)
    exact ⟨t2, by simp [applySubs, hab, ht2]⟩

theorem firstSearchE_spec {t : String} : ∀ (ps : List String),
    (∀ q ∈ ps, (parsePattern q).isSome = true) →
    ∃ o, firstSearchE ps t = Except.ok o ∧
      (o.isSome = true ↔ ∃ q ∈ ps, reMatchesB q t = true) := by
  intro ps
  induction ps with
  | nil => intro _; exact ⟨none, rfl, by simp⟩
  | cons p rest ih =>
    intro hv
    have hp := hv p (by simp)
    obtain ⟨r, hr⟩ : ∃ r, parsePattern p = some r := by
      cases hpp : parsePattern p with
      | none => rw [hpp] at hp; simp at hp
      | some r => exact ⟨r, rfl⟩
    cases hs : searchRE r t.data with
    | some gs =>
      refine ⟨some gs, ?_, ?_⟩
      · simp [firstSearchE, reSearchE, hr, hs]
      · constructor
        · intro _
          exact ⟨p, by simp, by simp [reMatchesB, reSearchE, hr, hs]⟩
        · intro _
          simp
    | none =>
      obtain ⟨o, ho, hiff⟩ := ih (fun q hq => hv q (by simp [hq]))
      refine ⟨o, ?_, ?_⟩
      · simp [firstSearchE, reSearchE, hr, hs, ho]
      · rw [hiff]
        constructor
        · rintro ⟨q, hq, hm⟩
          exact ⟨q, by simp [hq], hm⟩
        · rintro ⟨q, hq, hm⟩
          simp at hq
          rcases hq with hq | hq
          · subst hq
            simp [reMatchesB, reSearchE, hr, hs] at hm
          · exact ⟨q, hq, hm⟩

theorem istype_hit_env_irrelevant (env env' : Env) (msg : ElasticDict)
    (target : String) (patterns : List String) (cache : TypeCache)
    (a v : String) (hf : pyFormat target msg = Except.ok a)
    (hc : alookup cache a = some v) :
    arg_istype_func env msg target patterns cache
      = arg_istype_func env' msg target patterns cache := by
  simp only [arg_istype_func, hf, hc]

theorem istype_hit_tr {env : Env} {msg : ElasticDict}
    {target : String} {patterns : List String} {cache : TypeCache}
    {a v : String} {r m' c' tr} (hf : pyFormat target msg = Except.ok a)
    (hc : alookup cache a = some v)
    (h : arg_istype_func env msg target patterns cache = Except.ok (r, m', c', tr)) :
    tr = [] := by
  simp only [arg_istype_func, hf, hc] at h
  exact istypeCont_tr h

theorem istype_miss_fail (env : Env) (msg : ElasticDict) (target : String)
    (patterns : List String) (cache : TypeCache) (a : String) (kv : Value)
    (hf : pyFormat target msg = Except.ok a) (hc : alookup cache a = none)
    (hk : msg.get "kind" = some kv) (hd : truthyS (env.detect kv a) = false) :
    arg_istype_func env msg target patterns cache
      = Except.ok (false, msg, cache, [Event.classify a]) := by
  simp only [arg_istype_func, hf, hc, hk]
  unfold istypeCont
  rw [if_neg (by simp [hd])]

theorem istype_miss_success (env : Env) (msg : ElasticDict) (target p0 : String)
    (ps : List String) (cache : TypeCache) (a : String) (kv : Value) (t : String)
    (hf : pyFormat target msg = Except.ok a) (hc : alookup cache a = none)
    (hk : msg.get "kind" = some kv) (hdt : env.detect kv a = some t)
    (hne : t ≠ "") :
    (∀ gs, firstSearchE (p0 :: ps) t = Except.ok (some gs) →
       arg_istype_func env msg target (p0 :: ps) cache =
         Except.ok (true, msgUpdate msg (groupPairs gs), aset cache a t, [Event.classify a])) ∧
    (firstSearchE (p0 :: ps) t = Except.ok none →
       arg_istype_func env msg target (p0 :: ps) cache =
         Except.ok (false, msg, aset cache a t, [Event.classify a])) ∧
    (∀ e, firstSearchE (p0 :: ps) t = Except.error e →
       arg_istype_func env msg target (p0 :: ps) cache = Except.error e) := by
  have htr : truthyS (some t) = true := by simp [truthyS, hne]
  refine ⟨?_, ?_, ?_⟩
  · intro gs hfs
    simp only [arg_istype_func, hf, hc, hk, hdt]
    unfold istypeCont
    rw [if_pos htr]
    simp only [Option.getD_some]
    rw [hfs]
  · intro hfs
    simp only [arg_istype_func, hf, hc, hk, hdt]
    unfold istypeCont
    rw [if_pos htr]
    simp only [Option.getD_some]
    rw [hfs]
  · intro e hfs
    simp only [arg_istype_func, hf, hc, hk, hdt]
    unfold istypeCont
    rw [if_pos htr]
    simp only [Option.getD_some]
    rw [hfs]

/-! ### Claim theorems -/

/-- C1: Rollback atomicity.  For any rule whose match clauses do not all
succeed (the match loop returns `False`), the evaluator calls
`msg.reverse()`, restoring the context to exactly the value it had at
the start of the rule (its log being empty at rule start), and the next
rules are evaluated against that identical context: a failed rule
leaves no observable trace in the context. -/
theorem rollback_atomicity {env : Env} {msg msg2 : ElasticDict}
    {cache cache2 : TypeCache} {ri : Nat} {mls : List MatchLine}
    {tr : List Event} {n : String} {als : List ActionLine} {rest : List Rule}
    (hlog : msg.log = [])
    (hev : evalClauses env msg cache ri 0 mls = (tr, Except.ok (false, msg2, cache2))) :
    msg2.reverse = msg ∧
    handleRulesGo env msg cache ri ((n, (mls, als)) :: rest) =
      (tr ++ (handleRulesGo env msg cache2 (ri + 1) rest).1,
       (handleRulesGo env msg cache2 (ri + 1) rest).2) := by
  have hmr : msg2.reverse = msg := by
    rw [evalClauses_rev mls msg cache ri 0 tr false msg2 cache2 hev]
    exact reverse_of_log_nil hlog
  refine ⟨hmr, ?_⟩
  rw [handleRulesGo_cons, hev]
  dsimp only
  rw [if_neg Bool.false_ne_true, hmr]

/-- Witness for rollback_atomicity: a rule whose `kind is text` clause
fails on a raw-kind message leaves the context unchanged and evaluation
continues on the remaining rules with that context. -/
theorem rollback_atomicity_witness :
    (ElasticDict.mk [("kind", Value.kind Kind.raw)] []).log = [] ∧
    evalClauses env0 (ElasticDict.mk [("kind", Value.kind Kind.raw)] []) [] 0 0
        [MatchLine.kindIs ["text"]] =
      ([Event.clause 0 0],
       Except.ok (false, ElasticDict.mk [("kind", Value.kind Kind.raw)] [], [])) ∧
    ((ElasticDict.mk [("kind", Value.kind Kind.raw)] []).reverse
        = ElasticDict.mk [("kind", Value.kind Kind.raw)] [] ∧
     handleRulesGo env0 (ElasticDict.mk [("kind", Value.kind Kind.raw)] []) [] 0
         [("a", ([MatchLine.kindIs ["text"]], []))] =
       ([Event.clause 0 0] ++
          (handleRulesGo env0 (ElasticDict.mk [("kind", Value.kind Kind.raw)] []) [] 1 []).1,
        (handleRulesGo env0 (ElasticDict.mk [("kind", Value.kind Kind.raw)] []) [] 1 []).2)) :=
  ⟨rfl, rfl, rollback_atomicity rfl rfl⟩

/-- C3: Short-circuit conjunction.  Once a match clause of a rule
returns false, the remaining clauses of that rule are never evaluated:
the match loop's outcome and its event trace are those of the list
truncated right after the failing clause, so no clause event (and no
evaluator invocation) for any later clause exists. -/
theorem short_circuit_and {env : Env} {msg m1 m2 : ElasticDict}
    {cache c1 c2 : TypeCache} {ri ci : Nat} {pre : List MatchLine}
    {c : MatchLine} {post : List MatchLine} {tr0 trc : List Event}
    (hpre : evalClauses env msg cache ri ci pre = (tr0, Except.ok (true, m1, c1)))
    (hc : evalMatchLine env m1 c1 c = Except.ok (false, m2, c2, trc)) :
    evalClauses env msg cache ri ci (pre ++ c :: post) =
      evalClauses env msg cache ri ci (pre ++ [c]) ∧
    evalClauses env msg cache ri ci (pre ++ c :: post) =
      (tr0 ++ (Event.clause ri (ci + pre.length) :: trc),
       Except.ok (false, m2, c2)) := by
  have happ := evalClauses_append pre msg cache ri ci tr0 m1 c1 hpre
  have hstep : ∀ ys, evalClauses env m1 c1 ri (ci + pre.length) (c :: ys) =
      (Event.clause ri (ci + pre.length) :: trc, Except.ok (false, m2, c2)) := by
    intro ys
    rw [evalClauses_cons, hc]
    dsimp only
    rw [if_neg Bool.false_ne_true]
  rw [happ (c :: post), happ [c], hstep post, hstep []]
  exact ⟨rfl, rfl⟩

/-- Witness for short_circuit_and: after `kind is raw` succeeds and
`kind is text` fails, a further `kind is url` clause is never invoked. -/
theorem short_circuit_and_witness :
    evalClauses env0 (ElasticDict.mk [("kind", Value.kind Kind.raw)] []) [] 0 0
        [MatchLine.kindIs ["raw"]] =
      ([Event.clause 0 0],
       Except.ok (true, ElasticDict.mk [("kind", Value.kind Kind.raw)] [], [])) ∧
    evalMatchLine env0 (ElasticDict.mk [("kind", Value.kind Kind.raw)] []) []
        (MatchLine.kindIs ["text"]) =
      Except.ok (false, ElasticDict.mk [("kind", Value.kind Kind.raw)] [], [], []) ∧
    (evalClauses env0 (ElasticDict.mk [("kind", Value.kind Kind.raw)] []) [] 0 0
        ([MatchLine.kindIs ["raw"]] ++ MatchLine.kindIs ["text"] :: [MatchLine.kindIs ["url"]]) =
      evalClauses env0 (ElasticDict.mk [("kind", Value.kind Kind.raw)] []) [] 0 0
        ([MatchLine.kindIs ["raw"]] ++ [MatchLine.kindIs ["text"]]) ∧
     evalClauses env0 (ElasticDict.mk [("kind", Value.kind Kind.raw)] []) [] 0 0
        ([MatchLine.kindIs ["raw"]] ++ MatchLine.kindIs ["text"] :: [MatchLine.kindIs ["url"]]) =
      ([Event.clause 0 0] ++ (Event.clause 0 (0 + [MatchLine.kindIs ["raw"]].length) :: []),
       Except.ok (false, ElasticDict.mk [("kind", Value.kind Kind.raw)] [], []))) :=
  ⟨rfl, rfl, short_circuit_and rfl rfl⟩

/-- C9: a `kind is` clause whose first argument is not a kind name, or
which runs against a context without a kind field, returns false
without raising and leaves the context (and cache) unchanged. -/
theorem kind_is_non_fatal :
    ∀ (msg : ElasticDict) (a : String) (rest : List String) (cache : TypeCache),
      (kindFromName a = none ∨ msg.get "kind" = none) →
      kind_is_func msg (a :: rest) cache = Except.ok (false, msg, cache, []) := by
  intro msg a rest cache h
  cases hk : msg.get "kind" with
  | none => simp [kind_is_func, hk]
  | some v =>
    rcases h with h | h
    · simp [kind_is_func, hk, h]
    · rw [h] at hk
      cases hk

/-- Witness for kind_is_non_fatal: `kind is bogus` on a raw-kind
message returns false. -/
theorem kind_is_non_fatal_witness :
    (kindFromName "bogus" = none ∨
       (ElasticDict.mk [("kind", Value.kind Kind.raw)] []).get "kind" = none) ∧
    kind_is_func (ElasticDict.mk [("kind", Value.kind Kind.raw)] []) ["bogus"] [] =
      Except.ok (false, ElasticDict.mk [("kind", Value.kind Kind.raw)] [], [], []) :=
  ⟨Or.inl rfl,
   kind_is_non_fatal (ElasticDict.mk [("kind", Value.kind Kind.raw)] []) "bogus" [] []
     (Or.inl rfl)⟩

/-- C4 counterexample: a match clause (`arg is {data} x`) whose target
references the absent variable `data` makes `handle_rules` itself
return the raised `KeyError` — the missing-variable condition IS
propagated out of the rule evaluator as a fatal error, the context is
not reverted, and no further rule is tried. -/
theorem missing_var_fatal_cex :
    handle_rules env0 (ElasticDict.mk [("kind", Value.kind Kind.raw)] [])
        [("r", ([MatchLine.argIs "{data}" ["x"]], []))] =
      ([Event.clause 0 0], Except.error (PyErr.keyError "data")) := rfl

/-- C4 amended: only the `plumb run` and `plumb download` actions treat
a missing context variable (caught by their `get_var_references` scan)
as the action returning failure.  Each of the four `arg` match-clause
evaluators raises the `KeyError` from resolving its target expression
(for `arg rewrite`, the escaped target), any raising match clause
heading a rule makes `handle_rules` itself return that error (no
rollback, no next rule), `plumb notify` raises the `KeyError` from
resolving its argument, and a raising action makes `handle_rules`
return that error too. -/
theorem missing_var_amended :
    (∀ (env : Env) (msg : ElasticDict) (action : String) (v : String),
       log_var_references msg action = Except.error (PyErr.keyError v) →
       plumb_run_func env msg action = Except.ok ((false, msg), [])) ∧
    (∀ (env : Env) (msg : ElasticDict) (action : String) (v : String),
       log_var_references msg action = Except.error (PyErr.keyError v) →
       plumb_download_func env msg action = Except.ok ((false, msg), [])) ∧
    (∀ (env : Env) (msg : ElasticDict) (cache : TypeCache) (l : MatchLine)
       (e : PyErr) (ri : Nat) (n : String) (cs : List MatchLine)
       (als : List ActionLine) (rest : List Rule),
       evalMatchLine env msg cache l = Except.error e →
       handleRulesGo env msg cache ri ((n, (l :: cs, als)) :: rest) =
         ([Event.clause ri 0], Except.error e)) ∧
    (∀ (env : Env) (msg : ElasticDict) (cache : TypeCache) (target : String)
       (e : PyErr),
       pyFormat target msg = Except.error e →
       (∀ checks, evalMatchLine env msg cache (MatchLine.argIs target checks) =
          Except.error e) ∧
       (∀ ps, evalMatchLine env msg cache (MatchLine.argMatches target ps) =
          Except.error e) ∧
       (∀ ps, evalMatchLine env msg cache (MatchLine.argIstype target ps) =
          Except.error e)) ∧
    (∀ (env : Env) (msg : ElasticDict) (cache : TypeCache) (target : String)
       (ps : List String) (e : PyErr),
       pyFormat (escape_match_group_references target) msg = Except.error e →
       evalMatchLine env msg cache (MatchLine.argRewrite target ps) =
         Except.error e) ∧
    (∀ (msg : ElasticDict) (action : String) (e : PyErr),
       pyFormat action msg = Except.error e →
       plumb_notify_func msg action = Except.error e) ∧
    (∀ (env : Env) (msg : ElasticDict) (ri ai : Nat) (action : String)
       (rest : List ActionLine) (e : PyErr),
       evalAction env msg ActionVerb.notify
           (escape_match_group_references action) = Except.error e →
       runActions env msg ri ai ((ActionVerb.notify, action) :: rest) =
         ([Event.action ri ai], Except.error e)) ∧
    (∀ (env : Env) (msg msgM : ElasticDict) (cache cM : TypeCache) (ri : Nat)
       (n : String) (mls : List MatchLine) (als : List ActionLine)
       (rest : List Rule) (tr tra : List Event) (e : PyErr),
       evalClauses env msg cache ri 0 mls = (tr, Except.ok (true, msgM, cM)) →
       runActions env (msgM.set "rule_name" (Value.str n)) ri 0 als =
         (tra, Except.error e) →
       handleRulesGo env msg cache ri ((n, (mls, als)) :: rest) =
         (tr ++ tra, Except.error e)) := by
  refine ⟨?_, ?_, ?_, ?_, ?_, ?_, ?_, ?_⟩
  · intro env msg action v h
    simp [plumb_run_func, h]
  · intro env msg action v h
    simp [plumb_download_func, h]
  · intro env msg cache l e ri n cs als rest hl
    have hec : evalClauses env msg cache ri 0 (l :: cs) =
        ([Event.clause ri 0], Except.error e) := by
      rw [evalClauses_cons, hl]
    rw [handleRulesGo_cons, hec]
  · intro env msg cache target e hfmt
    refine ⟨fun checks => ?_, fun ps => ?_, fun ps => ?_⟩
    · simp [evalMatchLine, arg_is_func, hfmt]
    · simp [evalMatchLine, arg_matches_func, hfmt]
    · simp [evalMatchLine, arg_istype_func, hfmt]
  · intro env msg cache target ps e hfmt
    simp [evalMatchLine, arg_rewrite_func, hfmt]
  · intro msg action e hfmt
    simp [plumb_notify_func, hfmt]
  · intro env msg ri ai action rest e ha
    rw [runActions_cons, ha]
  · intro env msg msgM cache cM ri n mls als rest tr tra e hev hra
    rw [handleRulesGo_cons, hev]
    dsimp only
    rw [if_pos rfl, hra]
    rfl

/-- Witness for missing_var_amended: `plumb run` and `plumb download`
on `echo \x7bdata\x7d` fail non-fatally against an empty context;
`arg is`, `arg matches`, `arg istype` and `arg rewrite` targets
referencing the absent `data` raise; a rule headed by such an
`arg matches` clause makes the evaluator return the error; and
`plumb notify \x7bdata\x7d` in a matched rule propagates its
`KeyError` out of the evaluator. -/
theorem missing_var_amended_witness :
    log_var_references (ElasticDict.mk [] []) "echo {data}" =
      Except.error (PyErr.keyError "data") ∧
    plumb_run_func env0 (ElasticDict.mk [] []) "echo {data}" =
      Except.ok ((false, ElasticDict.mk [] []), []) ∧
    plumb_download_func env0 (ElasticDict.mk [] []) "echo {data}" =
      Except.ok ((false, ElasticDict.mk [] []), []) ∧
    pyFormat "{data}" (ElasticDict.mk [] []) = Except.error (PyErr.keyError "data") ∧
    evalMatchLine env0 (ElasticDict.mk [] []) [] (MatchLine.argIs "{data}" ["x"]) =
      Except.error (PyErr.keyError "data") ∧
    evalMatchLine env0 (ElasticDict.mk [] []) []
        (MatchLine.argMatches "{data}" ["x"]) =
      Except.error (PyErr.keyError "data") ∧
    evalMatchLine env0 (ElasticDict.mk [] []) []
        (MatchLine.argIstype "{data}" ["x"]) =
      Except.error (PyErr.keyError "data") ∧
    evalMatchLine env0 (ElasticDict.mk [] []) []
        (MatchLine.argRewrite "{data}" ["a,b"]) =
      Except.error (PyErr.keyError "data") ∧
    handleRulesGo env0 (ElasticDict.mk [] []) [] 0
        [("r", (MatchLine.argMatches "{data}" ["x"] :: [],
                ([] : List ActionLine)))] =
      ([Event.clause 0 0], Except.error (PyErr.keyError "data")) ∧
    plumb_notify_func (ElasticDict.mk [] []) "{data}" =
      Except.error (PyErr.keyError "data") ∧
    handleRulesGo env0 (ElasticDict.mk [("kind", Value.kind Kind.raw)] []) [] 0
        [("r", (([] : List MatchLine), [(ActionVerb.notify, "{data}")]))] =
      ([] ++ [Event.action 0 0], Except.error (PyErr.keyError "data")) :=
  ⟨rfl,
   missing_var_amended.1 env0 (ElasticDict.mk [] []) "echo {data}" "data" rfl,
   missing_var_amended.2.1 env0 (ElasticDict.mk [] []) "echo {data}" "data" rfl,
   rfl,
   (missing_var_amended.2.2.2.1 env0 (ElasticDict.mk [] []) [] "{data}"
      (PyErr.keyError "data") rfl).1 ["x"],
   (missing_var_amended.2.2.2.1 env0 (ElasticDict.mk [] []) [] "{data}"
      (PyErr.keyError "data") rfl).2.1 ["x"],
   (missing_var_amended.2.2.2.1 env0 (ElasticDict.mk [] []) [] "{data}"
      (PyErr.keyError "data") rfl).2.2 ["x"],
   missing_var_amended.2.2.2.2.1 env0 (ElasticDict.mk [] []) [] "{data}" ["a,b"]
     (PyErr.keyError "data") rfl,
   missing_var_amended.2.2.1 env0 (ElasticDict.mk [] []) []
     (MatchLine.argMatches "{data}" ["x"]) (PyErr.keyError "data") 0 "r" []
     ([] : List ActionLine) [] rfl,
   missing_var_amended.2.2.2.2.2.1 (ElasticDict.mk [] []) "{data}"
     (PyErr.keyError "data") rfl,
   missing_var_amended.2.2.2.2.2.2.2 env0
     (ElasticDict.mk [("kind", Value.kind Kind.raw)] [])
     (ElasticDict.mk [("kind", Value.kind Kind.raw)] []) [] [] 0 "r"
     ([] : List MatchLine) [(ActionVerb.notify, "{data}")] [] []
     [Event.action 0 0] (PyErr.keyError "data") rfl rfl⟩

/-- C6: the rewrite reduction is sequential and left-to-right:
`oo -> le` first turns `oolong` into `lelong`, then `g -> g jing`
turns it into `lelong jing`, and the clause rebinds `data` to exactly
that string (logging the prior value). -/
theorem rewrite_sequential :
    pyReplace "oolong" "oo" "le" = "lelong" ∧
    pyReplace "lelong" "g" "g jing" = "lelong jing" ∧
    arg_rewrite_func (ElasticDict.mk [("data", Value.str "oolong")] [])
        "{data}" ["oo,le", "g,g jing"] [] =
      Except.ok (true,
        ElasticDict.mk [("data", Value.str "lelong jing")]
          [LogEntry.update "data" (Value.str "oolong")],
        [], []) :=
  ⟨rfl, rfl, rfl⟩

/-- C7 counterexample: `arg rewrite {data} []` on a context without
`data` raises `KeyError` to its caller instead of returning true, so
the clause does not always succeed. -/
theorem rewrite_always_true_cex :
    arg_rewrite_func (ElasticDict.mk [] []) "{data}" [] [] =
      Except.error (PyErr.keyError "data") := rfl

/-- C7 amended: the rewrite clause never returns false — every
non-raising evaluation returns true — and it does return true whenever
the (escaped) target resolves against the context and each
substitution pair splits on commas into exactly two pieces; a missing
variable or a malformed pair raises instead. -/
theorem rewrite_succeeds_amended :
    (∀ (msg : ElasticDict) (target : String) (patterns : List String)
       (cache : TypeCache) (r : Bool) (m' : ElasticDict) (c' : TypeCache)
       (tr : List Event),
       arg_rewrite_func msg target patterns cache = Except.ok (r, m', c', tr) →
       r = true) ∧
    (∀ (msg : ElasticDict) (target : String) (patterns : List String)
       (cache : TypeCache) (tmp : String),
       pyFormat (escape_match_group_references target) msg = Except.ok tmp →
       (∀ p ∈ patterns, (splitC2 p).length = 2) →
       ∃ tmp2, applySubs tmp patterns = Except.ok tmp2 ∧
         arg_rewrite_func msg target patterns cache =
           Except.ok (true,
             msg.set (stripBraces (escape_match_group_references target))
               (Value.str tmp2),
             cache, [])) := by
  constructor
  · intro msg target patterns cache r m' c' tr h
    cases hf : pyFormat (escape_match_group_references target) msg with
    | error e => simp [arg_rewrite_func, hf] at h
    | ok tmp =>
      cases ha : applySubs tmp patterns with
      | error e => simp [arg_rewrite_func, hf, ha] at h
      | ok tmp2 =>
        simp [arg_rewrite_func, hf, ha] at h
        exact h.1
  · intro msg target patterns cache tmp hf hps
    obtain ⟨tmp2, ht2⟩ := applySubs_ok hps tmp
    refine ⟨tmp2, ht2, ?_⟩
    simp [arg_rewrite_func, hf, ht2]

/-- Witness for rewrite_succeeds_amended on the resolvable target
`{data}` with the single well-formed pair `oo,le`. -/
theorem rewrite_succeeds_amended_witness :
    pyFormat (escape_match_group_references "{data}")
        (ElasticDict.mk [("data", Value.str "oolong")] []) = Except.ok "oolong" ∧
    (∀ p ∈ ["oo,le"], (splitC2 p).length = 2) ∧
    ∃ tmp2, applySubs "oolong" ["oo,le"] = Except.ok tmp2 ∧
      arg_rewrite_func (ElasticDict.mk [("data", Value.str "oolong")] [])
          "{data}" ["oo,le"] [] =
        Except.ok (true,
          (ElasticDict.mk [("data", Value.str "oolong")] []).set
            (stripBraces (escape_match_group_references "{data}")) (Value.str tmp2),
          [], []) :=
  ⟨rfl, by decide,
   rewrite_succeeds_amended.2 (ElasticDict.mk [("data", Value.str "oolong")] [])
     "{data}" ["oo,le"] [] "oolong" rfl (by decide)⟩

/-- C8 counterexample: with a detected type (`text/plain`) and an empty
pattern list, `arg_istype_func` raises (`UnboundLocalError` — the loop
variable `m` is never assigned) instead of returning a boolean, so the
clause as quantified over every pattern list does not hold. -/
theorem istype_empty_patterns_cex :
    arg_istype_func env1 (ElasticDict.mk [("kind", Value.kind Kind.text)] [])
        "x" [] [] = Except.error PyErr.unboundLocal := rfl

/-- C8 amended: when content-type detection yields no type (falsy
classifier result), the istype clause returns false to its caller
without raising and leaves the context and cache unchanged; when a type
is detected and the pattern list is nonempty (with each pattern a valid
regex), the clause returns true iff the detected type matches one of
the patterns by regex search. -/
theorem istype_fail_closed_amended :
    (∀ (env : Env) (msg : ElasticDict) (target : String) (patterns : List String)
       (cache : TypeCache) (a : String) (kv : Value),
       pyFormat target msg = Except.ok a →
       alookup cache a = none →
       msg.get "kind" = some kv →
       truthyS (env.detect kv a) = false →
       arg_istype_func env msg target patterns cache =
         Except.ok (false, msg, cache, [Event.classify a])) ∧
    (∀ (env : Env) (msg : ElasticDict) (target p0 : String) (ps : List String)
       (cache : TypeCache) (a : String) (kv : Value) (t : String),
       pyFormat target msg = Except.ok a →
       alookup cache a = none →
       msg.get "kind" = some kv →
       env.detect kv a = some t → t ≠ "" →
       (∀ q ∈ p0 :: ps, (parsePattern q).isSome = true) →
       ∃ o, firstSearchE (p0 :: ps) t = Except.ok o ∧
         (o.isSome = true ↔ ∃ q ∈ p0 :: ps, reMatchesB q t = true) ∧
         (∀ gs, o = some gs →
            arg_istype_func env msg target (p0 :: ps) cache =
              Except.ok (true, msgUpdate msg (groupPairs gs), aset cache a t,
                [Event.classify a])) ∧
         (o = none →
            arg_istype_func env msg target (p0 :: ps) cache =
              Except.ok (false, msg, aset cache a t, [Event.classify a]))) := by
  constructor
  · intro env msg target patterns cache a kv hf hc hk hd
    exact istype_miss_fail env msg target patterns cache a kv hf hc hk hd
  · intro env msg target p0 ps cache a kv t hf hc hk hdt hne hv
    obtain ⟨o, ho, hiff⟩ := firstSearchE_spec (p0 :: ps) hv
    have hms := istype_miss_success env msg target p0 ps cache a kv t hf hc hk hdt hne
    refine ⟨o, ho, hiff, ?_, ?_⟩
    · intro gs hgs
      exact hms.1 gs (by rw [← hgs]; exact ho)
    · intro hnone
      exact hms.2.1 (by rw [← hnone]; exact ho)

/-- Witness for istype_fail_closed_amended: a failing classifier makes
`arg istype` fail closed; a `text/plain` detection with pattern `text`
matches and returns true. -/
theorem istype_fail_closed_amended_witness :
    truthyS (env0.detect (Value.kind Kind.raw) "x") = false ∧
    arg_istype_func env0 (ElasticDict.mk [("kind", Value.kind Kind.raw)] [])
        "x" ["text"] [] =
      Except.ok (false, ElasticDict.mk [("kind", Value.kind Kind.raw)] [], [],
        [Event.classify "x"]) ∧
    env1.detect (Value.kind Kind.text) "x" = some "text/plain" ∧
    (∃ o, firstSearchE ["text"] "text/plain" = Except.ok o ∧
       (o.isSome = true ↔ ∃ q ∈ ["text"], reMatchesB q "text/plain" = true) ∧
       (∀ gs, o = some gs →
          arg_istype_func env1 (ElasticDict.mk [("kind", Value.kind Kind.text)] [])
              "x" ["text"] [] =
            Except.ok (true,
              msgUpdate (ElasticDict.mk [("kind", Value.kind Kind.text)] [])
                (groupPairs gs),
              aset [] "x" "text/plain", [Event.classify "x"])) ∧
       (o = none →
          arg_istype_func env1 (ElasticDict.mk [("kind", Value.kind Kind.text)] [])
              "x" ["text"] [] =
            Except.ok (false, ElasticDict.mk [("kind", Value.kind Kind.text)] [],
              aset [] "x" "text/plain", [Event.classify "x"]))) :=
  ⟨rfl,
   istype_fail_closed_amended.1 env0
     (ElasticDict.mk [("kind", Value.kind Kind.raw)] []) "x" ["text"] [] "x"
     (Value.kind Kind.raw) rfl rfl rfl rfl,
   rfl,
   istype_fail_closed_amended.2 env1
     (ElasticDict.mk [("kind", Value.kind Kind.text)] []) "x" "text" [] [] "x"
     (Value.kind Kind.text) "text/plain" rfl rfl rfl rfl (by decide) (by decide)⟩

/-- C10: the per-run type cache memoizes only successful detections.
On a cache hit the classifier is never consulted (the result does not
depend on the environment's classifier at all and no classify event is
emitted); on a miss with a falsy detection nothing is stored (the cache
comes back unchanged, so a later clause on the same value consults the
classifier again); on a miss with a truthy detection the detected type
is stored under the inspected value. -/
theorem type_cache_memoization :
    (∀ (env env' : Env) (msg : ElasticDict) (target : String)
       (patterns : List String) (cache : TypeCache) (a v : String),
       pyFormat target msg = Except.ok a →
       alookup cache a = some v →
       arg_istype_func env msg target patterns cache
           = arg_istype_func env' msg target patterns cache ∧
       ∀ r m' c' tr, arg_istype_func env msg target patterns cache
           = Except.ok (r, m', c', tr) → tr = []) ∧
    (∀ (env : Env) (msg : ElasticDict) (target : String) (patterns : List String)
       (cache : TypeCache) (a : String) (kv : Value),
       pyFormat target msg = Except.ok a →
       alookup cache a = none →
       msg.get "kind" = some kv →
       truthyS (env.detect kv a) = false →
       arg_istype_func env msg target patterns cache =
         Except.ok (false, msg, cache, [Event.classify a])) ∧
    (∀ (env : Env) (msg : ElasticDict) (target : String) (patterns : List String)
       (cache : TypeCache) (a : String) (kv : Value) (t : String)
       (r : Bool) (m' : ElasticDict) (c' : TypeCache) (tr : List Event),
       pyFormat target msg = Except.ok a →
       alookup cache a = none →
       msg.get "kind" = some kv →
       env.detect kv a = some t → t ≠ "" →
       arg_istype_func env msg target patterns cache = Except.ok (r, m', c', tr) →
       c' = aset cache a t ∧ Event.classify a ∈ tr) := by
  refine ⟨?_, ?_, ?_⟩
  · intro env env' msg target patterns cache a v hf hc
    exact ⟨istype_hit_env_irrelevant env env' msg target patterns cache a v hf hc,
           fun r m' c' tr h => istype_hit_tr hf hc h⟩
  · intro env msg target patterns cache a kv hf hc hk hd
    exact istype_miss_fail env msg target patterns cache a kv hf hc hk hd
  · intro env msg target patterns cache a kv t r m' c' tr hf hc hk hdt hne h
    cases patterns with
    | nil =>
      have htr : truthyS (some t) = true := by simp [truthyS, hne]
      simp only [arg_istype_func, hf, hc, hk, hdt] at h
      unfold istypeCont at h
      rw [if_pos htr] at h
      simp at h
    | cons p0 ps =>
      have hms := istype_miss_success env msg target p0 ps cache a kv t hf hc hk hdt hne
      cases hfs : firstSearchE (p0 :: ps) t with
      | error e =>
        rw [hms.2.2 e hfs] at h
        cases h
      | ok o =>
        cases o with
        | some gs =>
          rw [hms.1 gs hfs] at h
          simp at h
          obtain ⟨h1, h2, h3, h4⟩ := h
          subst h3
          subst h4
          exact ⟨rfl, by simp⟩
        | none =>
          rw [hms.2.1 hfs] at h
          simp at h
          obtain ⟨h1, h2, h3, h4⟩ := h
          subst h3
          subst h4
          exact ⟨rfl, by simp⟩

/-- Witness for type_cache_memoization: a cache hit ignores the
classifier, a failed detection stores nothing, a successful detection
stores `text/plain` under the inspected value. -/
theorem type_cache_memoization_witness :
    pyFormat "x" (ElasticDict.mk [("kind", Value.kind Kind.text)] []) = Except.ok "x" ∧
    alookup [("x", "app/json")] "x" = some "app/json" ∧
    (arg_istype_func env0 (ElasticDict.mk [("kind", Value.kind Kind.text)] [])
         "x" ["text"] [("x", "app/json")]
       = arg_istype_func env1 (ElasticDict.mk [("kind", Value.kind Kind.text)] [])
         "x" ["text"] [("x", "app/json")] ∧
     ∀ r m' c' tr,
       arg_istype_func env0 (ElasticDict.mk [("kind", Value.kind Kind.text)] [])
           "x" ["text"] [("x", "app/json")] = Except.ok (r, m', c', tr) → tr = []) ∧
    arg_istype_func env0 (ElasticDict.mk [("kind", Value.kind Kind.raw)] [])
        "x" ["text"] [] =
      Except.ok (false, ElasticDict.mk [("kind", Value.kind Kind.raw)] [], [],
        [Event.classify "x"]) ∧
    (([("x", "text/plain")] : TypeCache) = aset [] "x" "text/plain" ∧
     Event.classify "x" ∈ [Event.classify "x"]) :=
  ⟨rfl, rfl,
   type_cache_memoization.1 env0 env1
     (ElasticDict.mk [("kind", Value.kind Kind.text)] []) "x" ["text"]
     [("x", "app/json")] "x" "app/json" rfl rfl,
   type_cache_memoization.2.1 env0
     (ElasticDict.mk [("kind", Value.kind Kind.raw)] []) "x" ["text"] [] "x"
     (Value.kind Kind.raw) rfl rfl rfl rfl,
   type_cache_memoization.2.2 env1
     (ElasticDict.mk [("kind", Value.kind Kind.text)] []) "x" ["text"] [] "x"
     (Value.kind Kind.text) "text/plain" true
     (ElasticDict.mk [("kind", Value.kind Kind.text)] []) [("x", "text/plain")]
     [Event.classify "x"] rfl rfl rfl rfl (by decide) rfl⟩

/-- C2: first-match-wins.  If every rule before position `k` fails on
the (repeatedly restored) context and rule `k` fully matches, then
evaluation is identical with every later rule deleted (nothing after
rule `k` is ever evaluated, whatever rule `k`'s actions return), and
every action event of the whole run carries rule index `k`: only rule
`k`'s action clauses execute. -/
theorem first_match_wins {env : Env} {msg : ElasticDict} :
    ∀ (pre : List Rule) (cache0 cacheK : TypeCache) (ri : Nat)
      (nm : String) (mls : List MatchLine) (als : List ActionLine)
      (post : List Rule) (tr : List Event) (msgM : ElasticDict) (cM : TypeCache),
      msg.log = [] →
      allFail env msg cache0 ri pre = some cacheK →
      evalClauses env msg cacheK (ri + pre.length) 0 mls =
        (tr, Except.ok (true, msgM, cM)) →
      handleRulesGo env msg cache0 ri (pre ++ (nm, (mls, als)) :: post) =
        handleRulesGo env msg cache0 ri (pre ++ [(nm, (mls, als))]) ∧
      ∀ e ∈ (handleRulesGo env msg cache0 ri (pre ++ (nm, (mls, als)) :: post)).1,
        ∀ j, actionRuleIdx e = some j → j = ri + pre.length := by
  intro pre
  induction pre with
  | nil =>
    intro cache0 cacheK ri nm mls als post tr msgM cM hlog hpre hmatch
    simp [allFail] at hpre
    subst hpre
    simp only [List.length_nil, Nat.add_zero] at hmatch
    simp only [List.nil_append]
    constructor
    · rw [handleRulesGo_cons, handleRulesGo_cons, hmatch]
      dsimp only
      rw [if_pos rfl, if_pos rfl]
    · intro e he j hj
      rw [handleRulesGo_cons, hmatch] at he
      dsimp only at he
      rw [if_pos rfl] at he
      simp at he
      rcases he with he | he
      · have hna := evalClauses_no_action mls msg cache0 ri 0 e (by rw [hmatch]; exact he)
        rw [hna] at hj
        cases hj
      · have hje := runActions_events als (msgM.set "rule_name" (Value.str nm)) ri 0 e he j hj
        simpa using hje
  | cons p pre' ih =>
    intro cache0 cacheK ri nm mls als post tr msgM cM hlog hpre hmatch
    obtain ⟨pn, pmls, pals⟩ := p
    unfold allFail at hpre
    cases hev : evalClauses env msg cache0 ri 0 pmls with
    | mk ptr pout =>
      rw [hev] at hpre
      cases pout with
      | error e => simp at hpre
      | ok q =>
        obtain ⟨b, pm, pc⟩ := q
        cases b with
        | true => simp at hpre
        | false =>
          dsimp only at hpre
          have hmr : pm.reverse = msg := by
            rw [evalClauses_rev pmls msg cache0 ri 0 ptr false pm pc hev]
            exact reverse_of_log_nil hlog
          have hidx : ri + 1 + pre'.length = ri + (pre'.length + 1) := by omega
          have hmatch' : evalClauses env msg cacheK (ri + 1 + pre'.length) 0 mls =
              (tr, Except.ok (true, msgM, cM)) := by
            rw [hidx]
            simpa using hmatch
          have hih := ih pc cacheK (ri + 1) nm mls als post tr msgM cM hlog hpre hmatch'
          constructor
          · rw [List.cons_append, List.cons_append, handleRulesGo_cons,
                handleRulesGo_cons, hev]
            dsimp only
            rw [if_neg Bool.false_ne_true, if_neg Bool.false_ne_true, hmr, hih.1]
          · intro e he j hj
            rw [List.cons_append, handleRulesGo_cons, hev] at he
            dsimp only at he
            rw [if_neg Bool.false_ne_true, hmr] at he
            simp at he
            rcases he with he | he
            · have hna := evalClauses_no_action pmls msg cache0 ri 0 e (by rw [hev]; exact he)
              rw [hna] at hj
              cases hj
            · have hj' := hih.2 e he j hj
              simp only [List.length_cons]
              omega

/-- Witness for first_match_wins: one failing rule, then a rule with no
match clauses (always matches) with no actions, then a later rule that
is never reached. -/
theorem first_match_wins_witness :
    (ElasticDict.mk [("kind", Value.kind Kind.raw)] []).log = [] ∧
    allFail env0 (ElasticDict.mk [("kind", Value.kind Kind.raw)] []) [] 0
        [(("a", ([MatchLine.kindIs ["text"]], ([] : List ActionLine))) : Rule)] = some [] ∧
    evalClauses env0 (ElasticDict.mk [("kind", Value.kind Kind.raw)] []) []
        (0 + [(("a", ([MatchLine.kindIs ["text"]], ([] : List ActionLine))) : Rule)].length) 0 [] =
      ([], Except.ok (true, ElasticDict.mk [("kind", Value.kind Kind.raw)] [], [])) ∧
    (handleRulesGo env0 (ElasticDict.mk [("kind", Value.kind Kind.raw)] []) [] 0
         ([(("a", ([MatchLine.kindIs ["text"]], ([] : List ActionLine))) : Rule)] ++
           (("b", (([] : List MatchLine), ([] : List ActionLine))) : Rule) :: [(("c", (([] : List MatchLine), [(ActionVerb.run, "x")])) : Rule)]) =
       handleRulesGo env0 (ElasticDict.mk [("kind", Value.kind Kind.raw)] []) [] 0
         ([(("a", ([MatchLine.kindIs ["text"]], ([] : List ActionLine))) : Rule)] ++ [(("b", (([] : List MatchLine), ([] : List ActionLine))) : Rule)]) ∧
     ∀ e ∈ (handleRulesGo env0 (ElasticDict.mk [("kind", Value.kind Kind.raw)] []) [] 0
         ([(("a", ([MatchLine.kindIs ["text"]], ([] : List ActionLine))) : Rule)] ++
           (("b", (([] : List MatchLine), ([] : List ActionLine))) : Rule) :: [(("c", (([] : List MatchLine), [(ActionVerb.run, "x")])) : Rule)])).1,
       ∀ j, actionRuleIdx e = some j →
         j = 0 + [(("a", ([MatchLine.kindIs ["text"]], ([] : List ActionLine))) : Rule)].length) :=
  ⟨rfl, rfl, rfl,
   first_match_wins [(("a", ([MatchLine.kindIs ["text"]], ([] : List ActionLine))) : Rule)] [] [] 0 "b" [] []
     [(("c", (([] : List MatchLine), [(ActionVerb.run, "x")])) : Rule)] []
     (ElasticDict.mk [("kind", Value.kind Kind.raw)] []) [] rfl rfl rfl⟩

/-- C5: end-to-end scenario.  The rule `kind is raw; arg matches {data}
foo(.)bar(.); plumb run echo \x7b\0\x7d\x7b\1\x7d` on the message
`kind=raw, data="foo1bar2"` matches, binds the capture variables
`\0 = "1"` and `\1 = "2"` in group order, and invokes the external
process with argument vector `["echo", "12"]` — whether the process
exits 0, exits non-zero, or does not exist at all, the same invocation
happens and the matched rule is `test`. -/
theorem end_to_end_scenario :
    handle_rules env0
        (ElasticDict.mk
          [("data", Value.str "foo1bar2"), ("kind", Value.kind Kind.raw)] [])
        [("test",
          ([MatchLine.kindIs ["raw"], MatchLine.argMatches "{data}" ["foo(.)bar(.)"]],
           [(ActionVerb.run, "echo \x7b\\0\x7d\x7b\\1\x7d")]))] =
      ([Event.clause 0 0, Event.clause 0 1, Event.action 0 0,
        Event.exec ["echo", "12"]],
       Except.ok (some "test",
         ElasticDict.mk
           [("data", Value.str "foo1bar2"), ("kind", Value.kind Kind.raw),
            ("\\0", Value.str "1"), ("\\1", Value.str "2"),
            ("rule_name", Value.str "test")]
           [LogEntry.insert "rule_name", LogEntry.insert "\\1",
            LogEntry.insert "\\0"])) ∧
    handle_rules envExit1
        (ElasticDict.mk
          [("data", Value.str "foo1bar2"), ("kind", Value.kind Kind.raw)] [])
        [("test",
          ([MatchLine.kindIs ["raw"], MatchLine.argMatches "{data}" ["foo(.)bar(.)"]],
           [(ActionVerb.run, "echo \x7b\\0\x7d\x7b\\1\x7d")]))] =
      ([Event.clause 0 0, Event.clause 0 1, Event.action 0 0,
        Event.exec ["echo", "12"]],
       Except.ok (some "test",
         ElasticDict.mk
           [("data", Value.str "foo1bar2"), ("kind", Value.kind Kind.raw),
            ("\\0", Value.str "1"), ("\\1", Value.str "2"),
            ("rule_name", Value.str "test")]
           [LogEntry.insert "rule_name", LogEntry.insert "\\1",
            LogEntry.insert "\\0"])) ∧
    handle_rules envNoExe
        (ElasticDict.mk
          [("data", Value.str "foo1bar2"), ("kind", Value.kind Kind.raw)] [])
        [("test",
          ([MatchLine.kindIs ["raw"], MatchLine.argMatches "{data}" ["foo(.)bar(.)"]],
           [(ActionVerb.run, "echo \x7b\\0\x7d\x7b\\1\x7d")]))] =
      ([Event.clause 0 0, Event.clause 0 1, Event.action 0 0,
        Event.exec ["echo", "12"]],
       Except.ok (some "test",
         ElasticDict.mk
           [("data", Value.str "foo1bar2"), ("kind", Value.kind Kind.raw),
            ("\\0", Value.str "1"), ("\\1", Value.str "2"),
            ("rule_name", Value.str "test")]
           [LogEntry.insert "rule_name", LogEntry.insert "\\1",
            LogEntry.insert "\\0"])) ∧
    (ElasticDict.mk
        [("data", Value.str "foo1bar2"), ("kind", Value.kind Kind.raw),
         ("\\0", Value.str "1"), ("\\1", Value.str "2"),
         ("rule_name", Value.str "test")]
        [LogEntry.insert "rule_name", LogEntry.insert "\\1",
         LogEntry.insert "\\0"]).get "\\0" = some (Value.str "1") ∧
    (ElasticDict.mk
        [("data", Value.str "foo1bar2"), ("kind", Value.kind Kind.raw),
         ("\\0", Value.str "1"), ("\\1", Value.str "2"),
         ("rule_name", Value.str "test")]
        [LogEntry.insert "rule_name", LogEntry.insert "\\1",
         LogEntry.insert "\\0"]).get "\\1" = some (Value.str "2") :=
  ⟨rfl, rfl, rfl, rfl, rfl⟩
